import Mathlib

set_option maxRecDepth 8000

namespace SherlockMail

/-!
Shallow embedding of `sherlock_mail.py` (Sherlock Mail, single-file tool).
Usernames and emails are modelled as `List Char`; external effects (HTTP,
WHOIS, DNS) are modelled as explicit outcome parameters, mirroring the
try/except structure of the source.
-/

/-! ### Character and string primitives -/

/-- Separator character class of the regex `[._-]` in `analyze_email_reputation`. -/
def isSepCh (c : Char) : Bool := c == '.' || c == '_' || c == '-'

/-- Character class of the regex `^[a-zA-Z0-9._-]+$` in `analyze_professional_score`. -/
def isCleanCh (c : Char) : Bool := c.isAlpha || c.isDigit || isSepCh c

/-- `listStartsWith pat l` holds when `pat` is a prefix of `l`. -/
def listStartsWith : List Char → List Char → Bool
  | [], _ => true
  | _ :: _, [] => false
  | p :: ps, c :: cs => p == c && listStartsWith ps cs

/-- Occurrence test for `pat` anywhere in the second list (Python `pat in s`). -/
def containsSub (pat : List Char) : List Char → Bool
  | [] => listStartsWith pat []
  | c :: cs => listStartsWith pat (c :: cs) || containsSub pat cs

/-- Python `pat in s` on strings. -/
def strContains (s pat : String) : Bool := containsSub pat.toList s.toList

/-- Python `str.lower()` (ASCII range, as exercised by the tool). -/
def pyLower (s : String) : String := String.mk (s.toList.map Char.toLower)

/-- Python `str.capitalize()`: first character upper-cased, the rest lower-cased. -/
def pyCapitalize : List Char → List Char
  | [] => []
  | c :: t => c.toUpper :: t.map Char.toLower

/-- Python `str.split(sep)`, which keeps empty pieces. -/
def pySplit (sep : Char) : List Char → List (List Char)
  | [] => [[]]
  | c :: t =>
    if c == sep then [] :: pySplit sep t
    else
      match pySplit sep t with
      | [] => [[c]]
      | h :: r => (c :: h) :: r

/-! ### Birth-year extraction (`analyze_personal_info`, basic info block)

`re.search(r'(19|20)\d{2}', part)` returns the leftmost 4-character window
starting with `19` or `20` followed by two digits. -/

/-- Attempt to match `(19|20)\d{2}` at the head of the list. -/
def yearMatchAt : List Char → Option (List Char)
  | c1 :: c2 :: c3 :: c4 :: _ =>
    if ((c1 == '1' && c2 == '9') || (c1 == '2' && c2 == '0')) && c3.isDigit && c4.isDigit then
      some [c1, c2, c3, c4]
    else none
  | _ => none

/-- Leftmost match of `(19|20)\d{2}` in the list (Python `re.search`). -/
def yearSearch : List Char → Option (List Char)
  | [] => none
  | c :: t =>
    match yearMatchAt (c :: t) with
    | some m => some m
    | none => yearSearch t

/-- Fuel-indexed helper for `replaceAll`; fuel is at least the list length. -/
def replaceAllFuel (pat : List Char) : Nat → List Char → List Char
  | _, [] => []
  | 0, l => l
  | fuel + 1, c :: t =>
    if listStartsWith pat (c :: t) && !pat.isEmpty then
      replaceAllFuel pat fuel (List.drop (pat.length - 1) t)
    else
      c :: replaceAllFuel pat fuel t

/-- Python `s.replace(pat, '')`: remove every (left-to-right, non-overlapping)
occurrence of `pat`. -/
def replaceAll (pat l : List Char) : List Char := replaceAllFuel pat l.length l

/-- State of the basic-info loop of `analyze_personal_info`: the
`possible_birth_year` cell and the accumulated `name_parts`. -/
structure BasicInfo where
  possibleBirthYear : Option (List Char)
  nameParts : List (List Char)
deriving DecidableEq

/-- Name-part contribution of one fragment: after deleting any matched year
text (`part.replace(year, '')`), digits and underscores are stripped
(`re.sub(r'[0-9_]', '', part)`) and, when the remainder is non-empty, it is
capitalized and contributed. -/
def cleanFragment (p : List Char) : Option (List Char) :=
  let p1 : List Char :=
    match yearSearch p with
    | some m => replaceAll m p
    | none => p
  let c : List Char := p1.filter fun ch => !(ch.isDigit || ch == '_')
  if c = [] then none else some (pyCapitalize c)

/-- One iteration of the `for part in username_parts` loop in
`analyze_personal_info`: a year match overwrites the stored birth year, and
the fragment's cleaned capitalized remainder (if any) is appended to the
name parts. -/
def processPart (st : BasicInfo) (part : List Char) : BasicInfo :=
  { possibleBirthYear :=
      match yearSearch part with
      | some m => some m
      | none => st.possibleBirthYear
    nameParts :=
      match cleanFragment part with
      | some np => st.nameParts ++ [np]
      | none => st.nameParts }

/-- Basic-info block of `analyze_personal_info`: split the username on `.`
and fold the per-fragment processing. -/
def analyzeBasic (username : List Char) : BasicInfo :=
  (pySplit '.' username).foldl processPart ⟨none, []⟩

/-- The birth year the claim/spec attributes to a fragment list: here, the
match from the last fragment containing one (what the code computes). -/
def lastFragmentYear (parts : List (List Char)) : Option (List Char) :=
  (parts.filterMap yearSearch).getLast?

/-! ### Reputation scoring (`analyze_email_reputation`) -/

/-- The regex `re.match(r'^[a-zA-Z]+\.[a-zA-Z]+', username)`: a non-empty
alphabetic run, a dot, then at least one alphabetic character (unanchored on
the right). -/
def matchesProfessionalBool (u : List Char) : Bool :=
  match u.dropWhile Char.isAlpha with
  | '.' :: c :: _ => !(u.takeWhile Char.isAlpha).isEmpty && c.isAlpha
  | _ => false

/-- The regex `re.match(r'^[a-zA-Z]+$', username)`. -/
def matchesSimpleBool (u : List Char) : Bool := !u.isEmpty && u.all Char.isAlpha

/-- Number of distinct character classes present among lowercase, uppercase,
digit, separator (the `char_types` sum in `analyze_email_reputation`). -/
def charTypes (u : List Char) : Nat :=
  (if u.any Char.isLower then 1 else 0) + (if u.any Char.isUpper then 1 else 0) +
    (if u.any Char.isDigit then 1 else 0) + (if u.any isSepCh then 1 else 0)

/-- Raw reputation total of `analyze_email_reputation`; `domainAge` is the
WHOIS-derived age in days (`none` when the lookup failed or the creation date
is absent). -/
def reputationRaw (domainAge : Option Int) (u : List Char) : Nat :=
  (match domainAge with
   | some a => if a > 365 then 20 else 0
   | none => 0)
  + (if matchesProfessionalBool u then 15 else if matchesSimpleBool u then 10 else 0)
  + (if 6 ≤ u.length ∧ u.length ≤ 24 then 10 else 0)
  + 5 * charTypes u

/-- The `"score"` field: `min(reputation_score, 100)`. -/
def reputationScore (domainAge : Option Int) (u : List Char) : Nat :=
  min (reputationRaw domainAge u) 100

/-- The `"risk_level"` field:
`"Low" if reputation_score > 70 else "Medium" if reputation_score > 40 else "High"`. -/
def reputationLevel (domainAge : Option Int) (u : List Char) : String :=
  if reputationRaw domainAge u > 70 then "Low"
  else if reputationRaw domainAge u > 40 then "Medium"
  else "High"

/-- Spec-side reading of the two-fragment "firstname.lastname"-like shape:
some non-empty alphabetic fragment, a dot, a non-empty alphabetic fragment,
then anything. -/
def SpecTwoFragmentShape (u : List Char) : Prop :=
  ∃ a b rest, u = a ++ '.' :: (b ++ rest) ∧ a ≠ [] ∧ b ≠ [] ∧
    (∀ c ∈ a, c.isAlpha = true) ∧ (∀ c ∈ b, c.isAlpha = true)

/-- Spec-side reading of a single alphabetic token. -/
def SpecSimpleToken (u : List Char) : Prop := u ≠ [] ∧ ∀ c ∈ u, c.isAlpha = true

/-- Level mapping as the claim words it: High above 70, Medium above 40,
otherwise Low. -/
def claimedReputationLevel (score : Nat) : String :=
  if score > 70 then "High" else if score > 40 then "Medium" else "Low"

/-! ### Social footprint orchestration (`analyze_social_footprint`) -/

/-- Outcome of one `requests.get`: a response with a status code, or a raised
exception (timeout, connection error, ...). -/
inductive HttpOutcome where
  | resp (status : Nat)
  | exn
deriving DecidableEq

/-- Entry stored in `footprint["platforms"]` for one platform. -/
structure FootEntry where
  found : Bool
  status : String
deriving DecidableEq

/-- The fixed platform catalog of `analyze_social_footprint`, in insertion
order. -/
def socialPlatforms : List String :=
  ["GitHub", "LinkedIn", "Twitter", "Instagram", "Facebook", "Medium", "Dev.to",
    "Stack Overflow"]

/-- Body of the per-platform loop: a 200 response stores a found entry, an
exception stores a not-found entry, and any other status stores nothing. -/
def footProbe (o : HttpOutcome) : Option FootEntry :=
  match o with
  | .resp s => if s = 200 then some ⟨true, "Active"⟩ else none
  | .exn => some ⟨false, "Not found or private"⟩

/-- The `footprint["platforms"]` mapping produced by `analyze_social_footprint`,
as an association list in platform-catalog order; `resp` gives the HTTP
outcome of each platform's single candidate URL. -/
def socialFootprintPlatforms (resp : String → HttpOutcome) : List (String × FootEntry) :=
  socialPlatforms.filterMap fun p => (footProbe (resp p)).map fun e => (p, e)

/-! ### Domain analysis (`analyze_personal_info`, domain block) -/

/-- Outcome of an external lookup call (WHOIS or DNS): a value or a raised
exception. -/
inductive Lookup (α : Type) where
  | ok (val : α)
  | err
deriving DecidableEq

/-- Shape of `domain_info.creation_date`: a single (already stringified)
date, a list of dates, or `None`. -/
inductive CreationField where
  | single (d : String)
  | dates (l : List String)
  | absent
deriving DecidableEq

/-- Fields read from a successful `whois.whois(domain)` call. -/
structure WhoisData where
  creationDate : CreationField
  org : Option String
  country : Option String
deriving DecidableEq

/-- Outcomes of the four external calls made by the domain-analysis block. -/
structure DomainEnv where
  whoisRes : Lookup WhoisData
  mxRes : Lookup (List String)
  txtRes : Lookup (List String)
  dmarcRes : Lookup (List String)

/-- `str(creation_date[0] if isinstance(creation_date, list) else creation_date)`;
`none` models the IndexError raised on an empty list, which the outer
`except` turns into the failure record. -/
def creationDisplay : CreationField → Option String
  | .single d => some d
  | .dates [] => none
  | .dates (d :: _) => some d
  | .absent => some "None"

/-- The `dns_info` dictionary: MX records, TXT records, and the first
SPF/DMARC records found (absent keys modelled as `none`). -/
structure DnsInfo where
  mxRecords : List String
  txtRecords : List String
  spfRecord : Option String
  dmarcRecord : Option String
deriving DecidableEq

/-- Python truthiness of an optional string (`bool(x)`). -/
def pyBoolStr : Option String → Bool
  | none => false
  | some s => !(s == "")

/-- DNS sub-block of the domain analysis: MX defaults to `[]` on failure; a
TXT failure leaves both the SPF and DMARC keys unset (so the DMARC lookup
never runs); a DMARC failure sets only `dmarc_record` to `None`. -/
def computeDns (env : DomainEnv) : DnsInfo :=
  let mx : List String :=
    match env.mxRes with
    | .ok l => l
    | .err => []
  match env.txtRes with
  | .err => ⟨mx, [], none, none⟩
  | .ok ts =>
    let spf : Option String := ts.find? fun r => strContains r "v=spf1"
    let dmarc : Option String :=
      match env.dmarcRes with
      | .err => none
      | .ok ds => ds.find? fun r => strContains r "v=DMARC1"
    ⟨mx, ts, spf, dmarc⟩

/-- The `personal_info["domain_analysis"]` value: either the failure record
written by the outer `except`, or the full record. -/
inductive DomainAnalysis where
  | failure (name : String) (error : String)
  | success (name : String) (creationDate : String) (organization : Option String)
      (country : Option String) (dns : DnsInfo) (hasSPF : Bool) (hasDMARC : Bool)
      (mxProviders : List String)
deriving DecidableEq

/-- Domain-analysis block of `analyze_personal_info`: everything, including
the WHOIS call, runs inside one outer `try`; any escape produces the failure
record. -/
def analyzeDomain (domain : String) (env : DomainEnv) : DomainAnalysis :=
  match env.whoisRes with
  | .err => .failure domain "Could not fetch domain information"
  | .ok w =>
    let dns := computeDns env
    match creationDisplay w.creationDate with
    | none => .failure domain "Could not fetch domain information"
    | some cd =>
      .success domain cd w.org w.country dns (pyBoolStr dns.spfRecord)
        (pyBoolStr dns.dmarcRecord) dns.mxRecords

/-- The `has_spf` flag of the produced record, when one was produced. -/
def hasSPFof : DomainAnalysis → Option Bool
  | .failure _ _ => none
  | .success _ _ _ _ _ s _ _ => some s

/-- The `has_dmarc` flag of the produced record, when one was produced. -/
def hasDMARCof : DomainAnalysis → Option Bool
  | .failure _ _ => none
  | .success _ _ _ _ _ _ d _ => some d

/-- The `dns_info` field of the produced record, when one was produced. -/
def dnsOf : DomainAnalysis → Option DnsInfo
  | .failure _ _ => none
  | .success _ _ _ _ dns _ _ _ => some dns

/-! ### Profile probing (`analyze_personal_info`, social profile loop) -/

/-- Outcome of probing one candidate URL: an exception, or a page with a
status code and an extracted title. A `none` title models
`soup.title.string` being `None`, in which case `title.lower()` raises and
the candidate is skipped by the outer `except`. -/
inductive ProbeOutcome where
  | exn
  | page (status : Nat) (title : Option String)
deriving DecidableEq

/-- One candidate URL of a platform: some templates are `None` when a
required fragment is missing, modelled as `absent`. -/
inductive Candidate where
  | absent
  | cand (url : String) (outcome : ProbeOutcome)
deriving DecidableEq

/-- The apostrophe character, kept out of string literals. -/
def apostrophe : Char := Char.ofNat 39

/-- The fixed negative markers checked against the lowered page title. -/
def negativeMarkers : List String :=
  ["not found", "error", "404", "page doesn" ++ String.mk [apostrophe] ++ "t exist"]

/-- `any(term in title.lower() for term in [...])`. -/
def hasNegMarker (title : String) : Bool :=
  negativeMarkers.any fun m => strContains (pyLower title) m

/-- The per-platform candidate loop: try candidates in declared order, skip
`None` URLs and raised requests, and `break` on the first 200 response whose
title carries no negative marker, returning its URL and title. -/
def probeChain : List Candidate → Option (String × String)
  | [] => none
  | Candidate.absent :: rest => probeChain rest
  | Candidate.cand _ ProbeOutcome.exn :: rest => probeChain rest
  | Candidate.cand url (ProbeOutcome.page s titleOpt) :: rest =>
    if s = 200 then
      match titleOpt with
      | none => probeChain rest
      | some t => if hasNegMarker t then probeChain rest else some (url, t)
    else probeChain rest

/-- Spec-side positive-match extraction for a single candidate: a match
exactly when the status code is 200 and the page title contains none of the
negative markers. -/
def candMatch : Candidate → Option (String × String)
  | Candidate.cand url (ProbeOutcome.page s (some t)) =>
    if s = 200 ∧ hasNegMarker t = false then some (url, t) else none
  | _ => none

/-! ### Security-risk analysis (`analyze_security_risks`) -/

/-- The qualitative risk level. -/
inductive RiskLevel where
  | low
  | medium
  | high
deriving DecidableEq

/-- Numeric rank of a risk level, for comparisons. -/
def riskRank : RiskLevel → Nat
  | .low => 0
  | .medium => 1
  | .high => 2

/-- Maximum of two risk levels by rank. -/
def riskMax (a b : RiskLevel) : RiskLevel := if riskRank a ≤ riskRank b then b else a

/-- Outcome of the WHOIS call in `analyze_security_risks`: success with an
optional computed domain age, or a raised exception. -/
inductive WhoisAgeOutcome where
  | ok (age : Option Int)
  | exn
deriving DecidableEq

/-- `analyze_security_risks`, traced statement by statement: the flag list
and the sequentially assigned risk level. -/
def securityState (u : List Char) (w : WhoisAgeOutcome) : List String × RiskLevel :=
  let risks : List String := []
  let level : RiskLevel := .low
  let step1 : List String × RiskLevel :=
    if u.length < 6 then (risks ++ ["Short username (easier to guess)"], .medium)
    else (risks, level)
  let step2 : List String × RiskLevel :=
    if u.any Char.isDigit then (step1.1 ++ ["Contains numbers (potential birth year/date)"], step1.2)
    else step1
  let step3 : List String × RiskLevel :=
    if '.' ∈ u then (step2.1 ++ ["Contains full name (potential privacy concern)"], .medium)
    else step2
  match w with
  | .ok (some a) =>
    if a < 365 then (step3.1 ++ ["Domain less than 1 year old"], .high) else step3
  | .ok none => step3
  | .exn => (step3.1 ++ ["Unable to verify domain age"], .medium)

/-- The final `"level"` field of `analyze_security_risks`. -/
def securityLevel (u : List Char) (w : WhoisAgeOutcome) : RiskLevel := (securityState u w).2

/-- Spec-side list of the levels demanded by the rules that fire: short
username demands Medium, a full-name separator demands Medium, young domain
demands High, WHOIS failure demands Medium. -/
def firedDemands (u : List Char) (w : WhoisAgeOutcome) : List RiskLevel :=
  (if u.length < 6 then [RiskLevel.medium] else [])
    ++ (if '.' ∈ u then [RiskLevel.medium] else [])
    ++ (match w with
        | .ok (some a) => if a < 365 then [RiskLevel.high] else []
        | .ok none => []
        | .exn => [RiskLevel.medium])

/-! ### Professional score (`analyze_professional_score`) -/

/-- The fixed provider list checked by `analyze_professional_score`. -/
def professionalDomains : List String := ["gmail.com", "outlook.com", "yahoo.com", "icloud.com"]

/-- The regex `re.match(r'^[a-zA-Z0-9._-]+$', username)`. -/
def cleanUsernameBool (u : List Char) : Bool := !u.isEmpty && u.all isCleanCh

/-- The full-name check of `analyze_professional_score`: the raw username
contains a dot and splits on `.` into exactly two parts, each longer than 2
characters. -/
def profFullNameBool (u : List Char) : Bool :=
  decide ('.' ∈ u) &&
    ((pySplit '.' u).length == 2 && (pySplit '.' u).all fun p => decide (2 < p.length))

/-- `analyze_professional_score`, score and factor list. -/
def professionalScoreFactors (u : List Char) (domain : String) : Nat × List String :=
  let s0 : Nat × List String := (0, [])
  let s1 : Nat × List String :=
    if profFullNameBool u then (s0.1 + 25, s0.2 ++ ["Full name format (firstname.lastname)"])
    else s0
  let s2 : Nat × List String :=
    if domain ∈ professionalDomains then (s1.1 + 15, s1.2 ++ ["Professional domain (" ++ domain ++ ")"])
    else s1
  let s3 : Nat × List String :=
    if 6 ≤ u.length ∧ u.length ≤ 30 then (s2.1 + 10, s2.2 ++ ["Appropriate length"])
    else s2
  let s4 : Nat × List String :=
    if cleanUsernameBool u then (s3.1 + 15, s3.2 ++ ["Clean character usage"])
    else s3
  if u.any Char.isDigit then s4 else (s4.1 + 15, s4.2 ++ ["No numeric characters"])

/-- The `"level"` field of `analyze_professional_score`. -/
def professionalLevel (score : Nat) : String :=
  if score ≥ 70 then "High" else if score ≥ 40 then "Medium" else "Low"

/-- The professional score as the claim words it, with the +25 rule read over
the derived identity name fragments (digit-stripped, capitalized) instead of
the raw dot-split parts. -/
def claimedProfessionalScore (u : List Char) (domain : String) : Nat :=
  (if (analyzeBasic u).nameParts.length = 2 ∧ ∀ p ∈ (analyzeBasic u).nameParts, 2 < p.length
   then 25 else 0)
  + (if domain ∈ professionalDomains then 15 else 0)
  + (if 6 ≤ u.length ∧ u.length ≤ 30 then 10 else 0)
  + (if u ≠ [] ∧ ∀ c ∈ u, isCleanCh c = true then 15 else 0)
  + (if ∀ c ∈ u, c.isDigit = false then 15 else 0)

/-- Spec-side reading of the +25 rule that matches the code: exactly two raw
dot-split parts, each longer than 2 characters. -/
abbrev ProfFullNameSpec (u : List Char) : Prop :=
  (pySplit '.' u).length = 2 ∧ ∀ p ∈ pySplit '.' u, 2 < p.length

/-! ### CLI entry point (`main`) -/

/-- Scan for the dot of `[^@]+\.[^@]+` after at least one tail character has
been consumed: succeeds on a dot followed by a non-`@` character, absorbs
other non-`@` characters, and dies on `@`. -/
def scanDot : List Char → Bool
  | [] => false
  | c :: t =>
    if c == '.' then
      match t with
      | [] => false
      | d :: _ => !(d == '@')
    else if c == '@' then false
    else scanDot t

/-- The part of the pattern after `@`: `[^@]+\.[^@]+` matched against a
prefix of the list. -/
def tailAccepts : List Char → Bool
  | [] => false
  | c :: t => !(c == '@') && scanDot t

/-- Find the first `@` (everything before it being the `[^@]+` local part)
and match the rest of the pattern there. -/
def findFirstAt : List Char → Bool
  | [] => false
  | c :: t => if c == '@' then tailAccepts t else findFirstAt t

/-- `re.match(r"[^@]+@[^@]+\.[^@]+", email)`: unanchored on the right, so it
tests whether some prefix of `email` matches. -/
def emailAccepts : List Char → Bool
  | [] => false
  | c :: t => !(c == '@') && findFirstAt t

/-- The argument handling of `main`: `args` is `sys.argv[1:]`; the result is
`some 1` when the process exits with code 1, `none` when the investigation
proceeds. -/
def pyMainExit (args : List (List Char)) : Option Nat :=
  if args.length = 1 then
    match args with
    | [e] => if emailAccepts e then none else some 1
    | _ => some 1
  else some 1

/-- `email.split('@')[0]`, the username used by the investigation. -/
def usernameOf (e : List Char) : Option (List Char) := (pySplit '@' e)[0]?

/-- `email.split('@')[1]`, the domain used by the investigation. -/
def domainOf (e : List Char) : Option (List Char) := (pySplit '@' e)[1]?

/-- Declarative reading of the pattern `[^@]+@[^@]+\.[^@]+` as a prefix
match: a non-empty `@`-free local part, `@`, a non-empty `@`-free run, a dot,
one more non-`@` character, then anything. -/
def EmailShapeMatch (e : List Char) : Prop :=
  ∃ (a b : List Char) (d : Char) (rest : List Char),
    e = a ++ '@' :: (b ++ '.' :: d :: rest) ∧ a ≠ [] ∧ b ≠ [] ∧
      '@' ∉ a ∧ '@' ∉ b ∧ d ≠ '@'

/-! ## Helper lemmas -/

/-- Splitting `takeWhile`/`dropWhile` at the first character failing the
predicate. -/
theorem takeWhile_eq_of_all (p : Char → Bool) (a : List Char) (x : Char) (r : List Char)
    (ha : ∀ c ∈ a, p c = true) (hx : p x = false) :
    (a ++ x :: r).takeWhile p = a ∧ (a ++ x :: r).dropWhile p = x :: r := by
  induction a with
  | nil => simp [List.takeWhile_cons, List.dropWhile_cons, hx]
  | cons c t ih =>
    have hc : p c = true := ha c (by simp)
    have ht := ih fun d hd => ha d (by simp [hd])
    simp [List.takeWhile_cons, List.dropWhile_cons, hc, ht.1, ht.2]

/-- The greedy matcher for `^[a-zA-Z]+\.[a-zA-Z]+` agrees with the
declarative two-fragment shape. -/
theorem matchesProfessional_iff (u : List Char) :
    matchesProfessionalBool u = true ↔ SpecTwoFragmentShape u := by
  constructor
  · intro h
    unfold matchesProfessionalBool at h
    split at h
    case h_1 c tl heq =>
      rw [Bool.and_eq_true] at h
      refine ⟨u.takeWhile Char.isAlpha, [c], tl, ?_, ?_, by simp, ?_, ?_⟩
      · conv_lhs => rw [← List.takeWhile_append_dropWhile (p := Char.isAlpha) (l := u)]
        rw [heq]; simp
      · intro hnil
        rw [hnil] at h
        simp at h
      · intro d hd
        exact List.mem_takeWhile_imp hd
      · intro d hd
        rw [List.mem_singleton] at hd
        subst hd
        exact h.2
    case h_2 => exact absurd h (by simp)
  · rintro ⟨a, b, rest, he, ha, hb, hAa, hAb⟩
    obtain ⟨ht, hd⟩ :=
      takeWhile_eq_of_all Char.isAlpha a '.' (b ++ rest) hAa (by decide)
    subst he
    unfold matchesProfessionalBool
    cases b with
    | nil => exact absurd rfl hb
    | cons c bt =>
      simp only [List.cons_append] at hd ht ⊢
      rw [hd, ht]
      have hc : c.isAlpha = true := hAb c (by simp)
      simp [hc, ha]

/-- The matcher for `^[a-zA-Z]+$` agrees with the declarative single-token
shape. -/
theorem matchesSimple_iff (u : List Char) :
    matchesSimpleBool u = true ↔ SpecSimpleToken u := by
  unfold matchesSimpleBool SpecSimpleToken
  cases u <;> simp [List.all_eq_true]

/-- The character-variety count is at most 4. -/
theorem charTypes_le_four (u : List Char) : charTypes u ≤ 4 := by
  unfold charTypes
  by_cases h1 : u.any Char.isLower <;> by_cases h2 : u.any Char.isUpper <;>
    by_cases h3 : u.any Char.isDigit <;> by_cases h4 : u.any isSepCh <;>
    simp [h1, h2, h3, h4]

/-- The raw reputation total is bounded by 65. -/
theorem reputationRaw_le_65 (domainAge : Option Int) (u : List Char) :
    reputationRaw domainAge u ≤ 65 := by
  have h4 := charTypes_le_four u
  have hA : (match domainAge with
      | some a => if a > 365 then 20 else 0
      | none => 0) ≤ 20 := by
    cases domainAge with
    | none => simp
    | some a => simp only []; split <;> omega
  have hB : (if matchesProfessionalBool u then 15
      else if matchesSimpleBool u then 10 else 0) ≤ 15 := by
    by_cases hp : matchesProfessionalBool u <;> by_cases hs : matchesSimpleBool u <;>
      simp [hp, hs]
  have hC : (if 6 ≤ u.length ∧ u.length ≤ 24 then 10 else 0) ≤ 10 := by
    split <;> omega
  unfold reputationRaw
  omega

/-! ## Claim C1 -/

/-- Counterexample to claim C1: for the username `ab` (with unavailable
domain age) the reputation score is 15, and the code returns the level
`"High"`, not the `"Low"` that the claim's level mapping (High above 70,
Medium above 40, else Low) predicts. -/
theorem reputation_level_claim_cex :
    reputationScore none ('a' :: 'b' :: []) = 15 ∧
    reputationLevel none ('a' :: 'b' :: []) = "High" ∧
    claimedReputationLevel (reputationScore none ('a' :: 'b' :: [])) = "Low" ∧
    reputationLevel none ('a' :: 'b' :: []) ≠
      claimedReputationLevel (reputationScore none ('a' :: 'b' :: [])) := by
  decide

/-- Claim C1 (amended): the reputation score is the additive total (domain
age, pattern shape, length, character variety) clamped to at most 100, and
the returned level is `"Low"` when the total exceeds 70, `"Medium"` when it
exceeds 40, and `"High"` otherwise — the inverse of the mapping the claim
stated.  The pattern bonuses correspond exactly to the declarative
two-fragment and single-token shapes. -/
theorem reputation_amended (domainAge : Option Int) (u : List Char) :
    reputationScore domainAge u = min (reputationRaw domainAge u) 100 ∧
    (matchesProfessionalBool u = true ↔ SpecTwoFragmentShape u) ∧
    (matchesSimpleBool u = true ↔ SpecSimpleToken u) ∧
    reputationLevel domainAge u =
      (if reputationRaw domainAge u > 70 then "Low"
       else if reputationRaw domainAge u > 40 then "Medium" else "High") :=
  ⟨rfl, matchesProfessional_iff u, matchesSimple_iff u, rfl⟩

/-- Witness for `reputation_amended` at the username `john.doe`. -/
theorem reputation_amended_witness :
    SpecTwoFragmentShape ('j' :: 'o' :: 'h' :: 'n' :: '.' :: 'd' :: 'o' :: 'e' :: []) :=
  ((reputation_amended none ('j' :: 'o' :: 'h' :: 'n' :: '.' :: 'd' :: 'o' :: 'e' :: [])).2.1).mp
    (by decide)

/-! ## Claim C9 -/

/-- Claim C9: for every input, the raw reputation total is at most 65, so
the clamp to 100 never changes the returned score and the `"Low"` branch
(total above 70) is unreachable: the returned risk level is never `"Low"`. -/
theorem reputation_clamp_unreachable (domainAge : Option Int) (u : List Char) :
    reputationRaw domainAge u ≤ 65 ∧
    reputationScore domainAge u = reputationRaw domainAge u ∧
    reputationLevel domainAge u ≠ "Low" := by
  have h := reputationRaw_le_65 domainAge u
  refine ⟨h, ?_, ?_⟩
  · unfold reputationScore
    omega
  · unfold reputationLevel
    have h70 : ¬ reputationRaw domainAge u > 70 := by omega
    rw [if_neg h70]
    split <;> decide

/-! ## Claim C2 -/

/-- The birth-year cell after the fragment fold holds the last match, or the
initial value when no fragment matches. -/
theorem foldl_processPart_year (ps : List (List Char)) (st : BasicInfo) :
    (ps.foldl processPart st).possibleBirthYear =
      (match (ps.filterMap yearSearch).getLast? with
       | some y => some y
       | none => st.possibleBirthYear) := by
  induction ps generalizing st with
  | nil => simp
  | cons p t ih =>
    rw [List.foldl_cons, ih]
    cases hy : yearSearch p with
    | none => simp [List.filterMap_cons, hy, processPart]
    | some m =>
      simp only [List.filterMap_cons, hy, processPart]
      cases hft : t.filterMap yearSearch with
      | nil => simp
      | cons q qt =>
        have hne : (q :: qt).getLast?.isSome := by
          rw [List.getLast?_isSome]
          simp
        rcases Option.isSome_iff_exists.mp hne with ⟨y, hy2⟩
        rw [List.getLast?_cons_cons, hy2]

/-- The name parts accumulated by the fragment fold are the per-fragment
cleaned capitalized remainders, in order. -/
theorem foldl_processPart_names (ps : List (List Char)) (st : BasicInfo) :
    (ps.foldl processPart st).nameParts = st.nameParts ++ ps.filterMap cleanFragment := by
  induction ps generalizing st with
  | nil => simp
  | cons p t ih =>
    rw [List.foldl_cons, ih]
    cases hc : cleanFragment p <;>
      simp [processPart, hc, List.filterMap_cons, List.append_assoc]

/-- Counterexample to claim C2: for the username `a1985.b2001`, both
fragments contain a birth-year pattern; the code stores the match of the
*last* matching fragment, `2001`, not the first-in-order `1985` the claim
predicts. -/
theorem birthYear_first_match_cex :
    (analyzeBasic "a1985.b2001".toList).possibleBirthYear = some "2001".toList ∧
    (analyzeBasic "a1985.b2001".toList).possibleBirthYear ≠ some "1985".toList := by
  decide

/-- Claim C2 (amended): the local-part fragments are scanned in order and
every fragment containing a birth-year pattern overwrites the stored value,
so `possibleBirthYear` is the leftmost match of the *last* fragment
containing one (not the first); the matched digits are removed from each
matching fragment before digit/underscore cleanup and capitalization. -/
theorem birthYear_last_match (u : List Char) :
    (analyzeBasic u).possibleBirthYear = lastFragmentYear (pySplit '.' u) ∧
    (analyzeBasic u).nameParts = (pySplit '.' u).filterMap cleanFragment := by
  constructor
  · rw [analyzeBasic, foldl_processPart_year]
    unfold lastFragmentYear
    cases ((pySplit '.' u).filterMap yearSearch).getLast? <;> simp
  · rw [analyzeBasic, foldl_processPart_names]
    simp

/-! ## Claim C3 -/

/-- Keys of an entry list built by optionally keeping each element of `l`
form a sublist of `l`. -/
theorem filterMap_keyed_sublist {α β : Type} (g : α → Option β) (l : List α) :
    ((l.filterMap fun p => (g p).map fun e => (p, e)).map Prod.fst).Sublist l := by
  induction l with
  | nil => simp
  | cons p t ih =>
    cases h : g p with
    | none =>
      simp only [List.filterMap_cons, h, Option.map_none']
      exact ih.cons p
    | some e =>
      simp only [List.filterMap_cons, h, Option.map_some', List.map_cons]
      exact ih.cons₂ p

/-- Membership in the social-footprint platform map. -/
theorem mem_socialFootprint_iff (resp : String → HttpOutcome) (p : String) (e : FootEntry) :
    (p, e) ∈ socialFootprintPlatforms resp ↔
      p ∈ socialPlatforms ∧ footProbe (resp p) = some e := by
  unfold socialFootprintPlatforms
  rw [List.mem_filterMap]
  constructor
  · rintro ⟨q, hq, hfq⟩
    rw [Option.map_eq_some'] at hfq
    rcases hfq with ⟨e', he', heq⟩
    rw [Prod.mk.injEq] at heq
    obtain ⟨rfl, rfl⟩ := heq
    exact ⟨hq, he'⟩
  · rintro ⟨hp, hf⟩
    exact ⟨p, hp, by rw [hf]; rfl⟩

/-- Counterexample to claim C3: when every platform's single candidate URL
returns a non-200 response without raising (e.g. HTTP 404), the orchestrator
records *no* entry for any platform, so a platform of the catalog (GitHub)
has no ProbeResult at all — not exactly one. -/
theorem footprint_one_result_cex :
    "GitHub" ∈ socialPlatforms ∧
    socialFootprintPlatforms (fun _ => HttpOutcome.resp 404) = [] := by
  decide

/-- Claim C3 (amended): each platform of the catalog gets *at most* one
entry; an entry is recorded with `found = true` exactly on a 200 response
and with `found = false` and the non-empty annotation
`"Not found or private"` exactly when the request raises (fails or times
out); a non-200 response without an exception yields no entry for that
platform; no exception escapes the orchestrator (it is a total function of
the per-platform outcomes). -/
theorem footprint_amended (resp : String → HttpOutcome) :
    ((socialFootprintPlatforms resp).map Prod.fst).Nodup ∧
    (∀ p e, (p, e) ∈ socialFootprintPlatforms resp →
      (resp p = HttpOutcome.resp 200 ∧ e = ⟨true, "Active"⟩) ∨
      (resp p = HttpOutcome.exn ∧ e = ⟨false, "Not found or private"⟩)) ∧
    (∀ p, p ∈ socialPlatforms → resp p = HttpOutcome.exn →
      (p, (⟨false, "Not found or private"⟩ : FootEntry)) ∈ socialFootprintPlatforms resp) ∧
    (∀ p s, resp p = HttpOutcome.resp s → s ≠ 200 →
      ∀ e, (p, e) ∉ socialFootprintPlatforms resp) := by
  refine ⟨?_, ?_, ?_, ?_⟩
  · exact List.Nodup.sublist (filterMap_keyed_sublist _ _) (by decide)
  · intro p e hm
    rcases (mem_socialFootprint_iff resp p e).mp hm with ⟨_, hf⟩
    cases hr : resp p with
    | resp s =>
      rw [hr] at hf
      by_cases hs : s = 200
      · subst hs
        have h200 : footProbe (HttpOutcome.resp 200) = some (⟨true, "Active"⟩ : FootEntry) := rfl
        rw [h200, Option.some.injEq] at hf
        exact Or.inl ⟨rfl, hf.symm⟩
      · simp [footProbe, hs] at hf
    | exn =>
      rw [hr] at hf
      have hx : footProbe HttpOutcome.exn = some (⟨false, "Not found or private"⟩ : FootEntry) := rfl
      rw [hx, Option.some.injEq] at hf
      exact Or.inr ⟨rfl, hf.symm⟩
  · intro p hp hr
    exact (mem_socialFootprint_iff resp p _).mpr ⟨hp, by rw [hr]; rfl⟩
  · intro p s hr hs e hm
    rcases (mem_socialFootprint_iff resp p e).mp hm with ⟨_, hf⟩
    rw [hr] at hf
    simp [footProbe, hs] at hf

/-- Witness for `footprint_amended`: a platform whose request raises gets a
`found = false` entry with the not-found annotation. -/
theorem footprint_amended_witness :
    ("GitHub", (⟨false, "Not found or private"⟩ : FootEntry)) ∈
      socialFootprintPlatforms fun _ => HttpOutcome.exn :=
  (footprint_amended fun _ => HttpOutcome.exn).2.2.1 "GitHub" (by decide) rfl

/-! ## Claim C4 -/

/-- Counterexample to claim C4: when the WHOIS lookup fails, the whole
domain analysis collapses to the failure record even though the MX, TXT and
DMARC lookups would all succeed — no DNS field of the DomainProfile is
produced at all. -/
theorem domain_whois_failure_cex :
    analyzeDomain "example.com"
        ⟨Lookup.err, Lookup.ok ["mx1.example.com"], Lookup.ok ["v=spf1 include:x"],
          Lookup.ok ["v=DMARC1; p=none"]⟩ =
      DomainAnalysis.failure "example.com" "Could not fetch domain information" ∧
    dnsOf (analyzeDomain "example.com"
        ⟨Lookup.err, Lookup.ok ["mx1.example.com"], Lookup.ok ["v=spf1 include:x"],
          Lookup.ok ["v=DMARC1; p=none"]⟩) = none := by
  decide

/-- Claim C4 (amended): the MX, TXT and DMARC lookups are each independently
fallible and independently defaulted, but only once the WHOIS lookup has
succeeded; when WHOIS fails (or its creation-date list is empty), the entire
domain analysis is replaced by the `{name, error}` record with no
MX/TXT/DMARC fields, and no error propagates to the caller. -/
theorem domain_steps_amended (d : String) (env : DomainEnv) (w : WhoisData) :
    (env.whoisRes = Lookup.err →
      analyzeDomain d env = DomainAnalysis.failure d "Could not fetch domain information") ∧
    ((computeDns env).mxRecords = match env.mxRes with
      | Lookup.ok l => l
      | Lookup.err => []) ∧
    ((computeDns { env with mxRes := Lookup.err }).txtRecords = (computeDns env).txtRecords ∧
      (computeDns { env with mxRes := Lookup.err }).spfRecord = (computeDns env).spfRecord ∧
      (computeDns { env with mxRes := Lookup.err }).dmarcRecord = (computeDns env).dmarcRecord) ∧
    (env.txtRes = Lookup.err →
      (computeDns env).txtRecords = [] ∧ (computeDns env).spfRecord = none ∧
        (computeDns env).dmarcRecord = none) ∧
    (env.whoisRes = Lookup.ok w → ∀ cd, creationDisplay w.creationDate = some cd →
      analyzeDomain d env =
        DomainAnalysis.success d cd w.org w.country (computeDns env)
          (pyBoolStr (computeDns env).spfRecord) (pyBoolStr (computeDns env).dmarcRecord)
          (computeDns env).mxRecords) := by
  refine ⟨?_, ?_, ?_, ?_, ?_⟩
  · intro h
    simp [analyzeDomain, h]
  · cases htxt : env.txtRes <;> simp [computeDns, htxt]
  · cases htxt : env.txtRes <;> simp [computeDns, htxt]
  · intro h
    simp [computeDns, h]
  · intro h cd hcd
    simp [analyzeDomain, h, hcd]

/-- Witness for `domain_steps_amended`: a successful WHOIS with a failed MX
lookup and a failed DMARC lookup still yields the full record, with the TXT
fields intact and the MX/DMARC fields defaulted. -/
theorem domain_steps_amended_witness :
    analyzeDomain "example.com"
        ⟨Lookup.ok ⟨CreationField.single "2001-01-01", some "Org", none⟩, Lookup.err,
          Lookup.ok ["v=spf1 include:x"], Lookup.err⟩ =
      DomainAnalysis.success "example.com" "2001-01-01" (some "Org") none
        ⟨[], ["v=spf1 include:x"], some "v=spf1 include:x", none⟩ true false [] :=
  ((domain_steps_amended "example.com"
        ⟨Lookup.ok ⟨CreationField.single "2001-01-01", some "Org", none⟩, Lookup.err,
          Lookup.ok ["v=spf1 include:x"], Lookup.err⟩
        ⟨CreationField.single "2001-01-01", some "Org", none⟩).2.2.2.2 rfl
      "2001-01-01" rfl).trans (by decide)

/-! ## Claim C6 -/

/-- Claim C6: in every produced domain analysis, `has_spf` is true only if
some TXT record of the domain contains `"v=spf1"`, `has_dmarc` is true only
if the `_dmarc` TXT lookup succeeded with a record containing `"v=DMARC1"`,
and a DMARC resolution failure always yields `has_dmarc = false` (no error
propagates — the analysis is a total function of the lookup outcomes). -/
theorem dns_marker_invariants (d : String) (env : DomainEnv) :
    (hasSPFof (analyzeDomain d env) = some true →
      ∃ ts, env.txtRes = Lookup.ok ts ∧ ∃ r ∈ ts, strContains r "v=spf1" = true) ∧
    (hasDMARCof (analyzeDomain d env) = some true →
      ∃ ds, env.dmarcRes = Lookup.ok ds ∧ ∃ r ∈ ds, strContains r "v=DMARC1" = true) ∧
    (env.dmarcRes = Lookup.err →
      ∀ b, hasDMARCof (analyzeDomain d env) = some b → b = false) := by
  cases hw : env.whoisRes with
  | err => simp [analyzeDomain, hw, hasSPFof, hasDMARCof]
  | ok w =>
    cases hcd : creationDisplay w.creationDate with
    | none => simp [analyzeDomain, hw, hcd, hasSPFof, hasDMARCof]
    | some cd =>
      refine ⟨?_, ?_, ?_⟩
      · intro h
        have h2 : pyBoolStr (computeDns env).spfRecord = true := by
          simpa [analyzeDomain, hw, hcd, hasSPFof] using h
        cases htxt : env.txtRes with
        | err => simp [computeDns, htxt, pyBoolStr] at h2
        | ok ts =>
          have hspf : (computeDns env).spfRecord = ts.find? fun r => strContains r "v=spf1" := by
            simp [computeDns, htxt]
          rw [hspf] at h2
          cases hfind : ts.find? fun r => strContains r "v=spf1" with
          | none => rw [hfind] at h2; simp [pyBoolStr] at h2
          | some r =>
            have hp := List.find?_some hfind
            exact ⟨ts, rfl, r, List.mem_of_find?_eq_some hfind, hp⟩
      · intro h
        have h2 : pyBoolStr (computeDns env).dmarcRecord = true := by
          simpa [analyzeDomain, hw, hcd, hasDMARCof] using h
        cases htxt : env.txtRes with
        | err => simp [computeDns, htxt, pyBoolStr] at h2
        | ok ts =>
          cases hdm : env.dmarcRes with
          | err => simp [computeDns, htxt, hdm, pyBoolStr] at h2
          | ok ds =>
            have hdr : (computeDns env).dmarcRecord =
                ds.find? fun r => strContains r "v=DMARC1" := by
              simp [computeDns, htxt, hdm]
            rw [hdr] at h2
            cases hfind : ds.find? fun r => strContains r "v=DMARC1" with
            | none => rw [hfind] at h2; simp [pyBoolStr] at h2
            | some r =>
              have hp := List.find?_some hfind
              exact ⟨ds, rfl, r, List.mem_of_find?_eq_some hfind, hp⟩
      · intro hdm b hb
        have h2 : pyBoolStr (computeDns env).dmarcRecord = b := by
          simpa [analyzeDomain, hw, hcd, hasDMARCof] using hb
        have hrec : (computeDns env).dmarcRecord = none := by
          cases htxt : env.txtRes <;> simp [computeDns, htxt, hdm]
        rw [hrec] at h2
        simpa [pyBoolStr] using h2.symm

/-- Witness for `dns_marker_invariants`: a successful SPF detection really
does come from a TXT record containing the SPF marker. -/
theorem dns_marker_invariants_witness :
    ∃ ts, (⟨Lookup.ok ⟨CreationField.absent, none, none⟩, Lookup.ok [],
        Lookup.ok ["v=spf1 include:x"], Lookup.err⟩ : DomainEnv).txtRes = Lookup.ok ts ∧
      ∃ r ∈ ts, strContains r "v=spf1" = true :=
  (dns_marker_invariants "example.com"
      ⟨Lookup.ok ⟨CreationField.absent, none, none⟩, Lookup.ok [],
        Lookup.ok ["v=spf1 include:x"], Lookup.err⟩).1 (by decide)

/-! ## Claim C5 -/

/-- Claim C5: a probe response is a positive profile match exactly when the
status code is 200 and the lowered page title contains none of the fixed
negative markers, and the per-platform loop returns the first candidate in
declared order satisfying this predicate — skipping `None` templates and
raised requests, and skipping all remaining candidates once a match is
found, even if a later candidate would also match. -/
theorem probe_first_valid (cs : List Candidate) :
    probeChain cs = (cs.filterMap candMatch).head? := by
  induction cs with
  | nil => rfl
  | cons c t ih =>
    cases c with
    | absent => simpa [probeChain, candMatch, List.filterMap_cons] using ih
    | cand url o =>
      cases o with
      | exn => simpa [probeChain, candMatch, List.filterMap_cons] using ih
      | page s titleOpt =>
        cases titleOpt with
        | none =>
          by_cases hs : s = 200 <;>
            simp [probeChain, candMatch, List.filterMap_cons, hs, ih]
        | some t1 =>
          by_cases hs : s = 200
          · by_cases hm : hasNegMarker t1
            · simp [probeChain, candMatch, List.filterMap_cons, hs, hm, ih]
            · simp [probeChain, candMatch, List.filterMap_cons, hs, hm]
          · simp [probeChain, candMatch, List.filterMap_cons, hs, ih]

/-! ## Claim C7 -/

/-- The left argument never exceeds the risk maximum. -/
theorem riskMax_le_left (a b : RiskLevel) : riskRank a ≤ riskRank (riskMax a b) := by
  unfold riskMax
  split
  case isTrue h => exact h
  case isFalse h => exact le_rfl

/-- The right argument never exceeds the risk maximum. -/
theorem riskMax_le_right (a b : RiskLevel) : riskRank b ≤ riskRank (riskMax a b) := by
  unfold riskMax
  split
  case isTrue h => exact le_rfl
  case isFalse h => omega

/-- The fold of `riskMax` dominates its initial value. -/
theorem foldl_riskMax_init (l : List RiskLevel) (init : RiskLevel) :
    riskRank init ≤ riskRank (l.foldl riskMax init) := by
  induction l generalizing init with
  | nil => exact le_rfl
  | cons a t ih => exact le_trans (riskMax_le_left init a) (ih (riskMax init a))

/-- The fold of `riskMax` dominates every element. -/
theorem foldl_riskMax_mem (l : List RiskLevel) (init : RiskLevel) (d : RiskLevel)
    (h : d ∈ l) : riskRank d ≤ riskRank (l.foldl riskMax init) := by
  induction l generalizing init with
  | nil => cases h
  | cons a t ih =>
    rcases List.mem_cons.mp h with rfl | hd
    · exact le_trans (riskMax_le_right init d) (foldl_riskMax_init t (riskMax init d))
    · exact ih (riskMax init a) hd

/-- Claim C7: the security-risk level starts Low and the rules fire in
sequence; the final level equals the maximum level demanded by any fired
rule (short username → Medium, full-name separator → Medium, young domain →
High, WHOIS failure → Medium), so once High is reached no later rule
downgrades it and the final level is never lower than any fired rule's
demand. -/
theorem security_level_escalation (u : List Char) (w : WhoisAgeOutcome) :
    securityLevel u w = (firedDemands u w).foldl riskMax RiskLevel.low ∧
    ∀ d ∈ firedDemands u w, riskRank d ≤ riskRank (securityLevel u w) := by
  have key : securityLevel u w = (firedDemands u w).foldl riskMax RiskLevel.low := by
    unfold securityLevel securityState firedDemands
    by_cases h1 : u.length < 6 <;> by_cases h2 : u.any Char.isDigit <;>
      by_cases h3 : '.' ∈ u <;>
      · cases w with
        | exn => simp [h1, h2, h3, riskMax, riskRank]
        | ok ao =>
          cases ao with
          | none => simp [h1, h2, h3, riskMax, riskRank]
          | some a => by_cases h4 : a < 365 <;> simp [h1, h2, h3, h4, riskMax, riskRank]
  refine ⟨key, fun d hd => ?_⟩
  rw [key]
  exact foldl_riskMax_mem _ _ d hd

/-- Witness for `security_level_escalation`: the short-username rule's
Medium demand is honoured for the username `ab` under a WHOIS failure. -/
theorem security_level_escalation_witness :
    riskRank RiskLevel.medium ≤ riskRank (securityLevel "ab".toList WhoisAgeOutcome.exn) :=
  (security_level_escalation "ab".toList WhoisAgeOutcome.exn).2 RiskLevel.medium (by decide)

/-! ## Claim C8 -/

/-- Splitting a list that does not contain the separator yields the list
itself as the only piece. -/
theorem pySplit_no_sep (sep : Char) (l : List Char) (h : sep ∉ l) :
    pySplit sep l = [l] := by
  induction l with
  | nil => rfl
  | cons c t ih =>
    have h1 : ¬ sep = c := fun hh => h (by rw [hh]; exact List.mem_cons_self c t)
    have h2 : sep ∉ t := fun hh => h (List.mem_cons_of_mem c hh)
    have hce : (c == sep) = false := by
      rw [beq_eq_false_iff_ne]
      exact fun hh => h1 hh.symm
    simp [pySplit, hce, ih h2]

/-- The full-name check of the professional score agrees with the
declarative two-part condition (the dot-containment test is subsumed by the
part count). -/
theorem profFullName_iff (u : List Char) :
    profFullNameBool u = true ↔ ProfFullNameSpec u := by
  unfold profFullNameBool ProfFullNameSpec
  constructor
  · intro h
    simp only [Bool.and_eq_true, decide_eq_true_eq, beq_iff_eq, List.all_eq_true] at h
    exact ⟨h.2.1, h.2.2⟩
  · rintro ⟨h2, hall⟩
    have hdot : '.' ∈ u := by
      by_contra hn
      rw [pySplit_no_sep '.' u hn] at h2
      simp at h2
    simp only [Bool.and_eq_true, decide_eq_true_eq, beq_iff_eq, List.all_eq_true]
    exact ⟨hdot, h2, hall⟩

/-- The clean-characters regex matcher agrees with its declarative reading. -/
theorem cleanUsername_iff (u : List Char) :
    cleanUsernameBool u = true ↔ u ≠ [] ∧ ∀ c ∈ u, isCleanCh c = true := by
  cases u <;> simp [cleanUsernameBool, List.all_eq_true]

/-- The digit test agrees with its declarative reading. -/
theorem noDigit_iff (u : List Char) :
    u.any Char.isDigit = false ↔ ∀ c ∈ u, c.isDigit = false := by
  rw [← Bool.not_eq_true, List.any_eq_true]
  push_neg
  constructor
  · intro h c hc
    simpa using h c hc
  · intro h c hc
    simp [h c hc]

/-- Counterexample to claim C8: for `abc..def@gmail.com` the derived
identity yields exactly two name fragments (`Abc`, `Def`), each longer than
2 characters, so the claimed formula awards the +25 full-name factor (total
80); the code instead tests the raw dot-split parts (`["abc", "", "def"]`,
three parts) and does not award it: the actual score is 55. -/
theorem professional_fragments_cex :
    (analyzeBasic "abc..def".toList).nameParts = ["Abc".toList, "Def".toList] ∧
    (professionalScoreFactors "abc..def".toList "gmail.com").1 = 55 ∧
    claimedProfessionalScore "abc..def".toList "gmail.com" = 80 ∧
    (professionalScoreFactors "abc..def".toList "gmail.com").1 ≠
      claimedProfessionalScore "abc..def".toList "gmail.com" := by
  decide

/-- Claim C8 (amended): the professional score is the stated five-factor
sum, except that the +25 factor is awarded iff the *raw* username splits on
`.` into exactly two parts each longer than 2 characters (not the derived
identity fragments); the level thresholds are High at 70 and Medium at 40;
and for `john.doe2019@example.com` the factor "Full name format" is awarded
while "No numeric characters" is not. -/
theorem professional_score_amended (u : List Char) (d : String) :
    (professionalScoreFactors u d).1 =
      (if ProfFullNameSpec u then 25 else 0) + (if d ∈ professionalDomains then 15 else 0)
        + (if 6 ≤ u.length ∧ u.length ≤ 30 then 10 else 0)
        + (if u ≠ [] ∧ ∀ c ∈ u, isCleanCh c = true then 15 else 0)
        + (if ∀ c ∈ u, c.isDigit = false then 15 else 0) ∧
    professionalLevel (professionalScoreFactors u d).1 =
      (if (professionalScoreFactors u d).1 ≥ 70 then "High"
       else if (professionalScoreFactors u d).1 ≥ 40 then "Medium" else "Low") ∧
    "Full name format (firstname.lastname)" ∈
      (professionalScoreFactors "john.doe2019".toList "example.com").2 ∧
    "No numeric characters" ∉
      (professionalScoreFactors "john.doe2019".toList "example.com").2 := by
  refine ⟨?_, rfl, by decide, by decide⟩
  have hs : (professionalScoreFactors u d).1 =
      (if profFullNameBool u then 25 else 0) + (if d ∈ professionalDomains then 15 else 0)
        + (if 6 ≤ u.length ∧ u.length ≤ 30 then 10 else 0)
        + (if cleanUsernameBool u then 15 else 0)
        + (if u.any Char.isDigit then 0 else 15) := by
    unfold professionalScoreFactors
    by_cases h1 : profFullNameBool u <;> by_cases h2 : d ∈ professionalDomains <;>
      by_cases h3 : 6 ≤ u.length ∧ u.length ≤ 30 <;> by_cases h4 : cleanUsernameBool u <;>
      by_cases h5 : u.any Char.isDigit <;> simp [h1, h2, h3, h4, h5]
  rw [hs]
  have e1 : (if profFullNameBool u then 25 else 0) = (if ProfFullNameSpec u then 25 else 0) := by
    by_cases h : profFullNameBool u
    · rw [if_pos h, if_pos ((profFullName_iff u).mp h)]
    · rw [if_neg h, if_neg fun hsp => h ((profFullName_iff u).mpr hsp)]
  have e4 : (if cleanUsernameBool u then 15 else 0) =
      (if u ≠ [] ∧ ∀ c ∈ u, isCleanCh c = true then 15 else 0) := by
    by_cases h : cleanUsernameBool u
    · rw [if_pos h, if_pos ((cleanUsername_iff u).mp h)]
    · rw [if_neg h, if_neg fun hsp => h ((cleanUsername_iff u).mpr hsp)]
  have e5 : (if u.any Char.isDigit then 0 else 15) =
      (if ∀ c ∈ u, c.isDigit = false then 15 else 0) := by
    by_cases h : u.any Char.isDigit
    · rw [if_pos h, if_neg]
      intro hall
      rw [(noDigit_iff u).mpr hall] at h
      exact absurd h (by simp)
    · rw [if_neg h, if_pos ((noDigit_iff u).mp (by simpa using h))]
  rw [e1, e4, e5]

/-! ## Claim C10 -/

/-- Characterization of the dot scan: it succeeds exactly when the list
decomposes as an `@`-free (possibly empty) run, a dot, and one more non-`@`
character. -/
theorem scanDot_iff (l : List Char) :
    scanDot l = true ↔ ∃ b d rest, l = b ++ '.' :: d :: rest ∧ '@' ∉ b ∧ d ≠ '@' := by
  induction l with
  | nil =>
    constructor
    · intro h
      exact absurd h (by simp [scanDot])
    · rintro ⟨b, d, rest, he, -, -⟩
      have hl := congrArg List.length he
      simp at hl
      omega
  | cons c t ih =>
    by_cases hc : c = '.'
    · subst hc
      cases t with
      | nil =>
        constructor
        · intro h
          exact absurd h (by simp [scanDot])
        · rintro ⟨b, d, rest, he, -, -⟩
          have hl := congrArg List.length he
          simp at hl
          omega
      | cons d0 t0 =>
        constructor
        · intro h
          have hd0 : d0 ≠ '@' := by simpa [scanDot] using h
          exact ⟨[], d0, t0, rfl, by simp, hd0⟩
        · rintro ⟨b, d, rest, he, hb, hd⟩
          have hd0 : d0 ≠ '@' := by
            cases b with
            | nil =>
              rw [List.nil_append] at he
              injection he with h1 h2
              injection h2 with h3 h4
              rw [h3]
              exact hd
            | cons b0 bt =>
              rw [List.cons_append] at he
              injection he with h1 h2
              cases bt with
              | nil =>
                rw [List.nil_append] at h2
                injection h2 with h3 h4
                rw [h3]
                decide
              | cons b1 bt2 =>
                rw [List.cons_append] at h2
                injection h2 with h3 h4
                rw [h3]
                intro hq
                refine hb (List.mem_cons_of_mem b0 ?_)
                rw [← hq]
                exact List.mem_cons_self b1 bt2
          simp [scanDot, hd0]
    · by_cases ha : c = '@'
      · subst ha
        constructor
        · intro h
          exact absurd h (by simp [scanDot])
        · rintro ⟨b, d, rest, he, hb, hd⟩
          cases b with
          | nil =>
            rw [List.nil_append] at he
            injection he with h1 h2
            exact absurd h1 (by decide)
          | cons b0 bt =>
            rw [List.cons_append] at he
            injection he with h1 h2
            exact absurd (List.mem_cons.mpr (Or.inl h1)) hb
      · have hstep : scanDot (c :: t) = scanDot t := by
          simp [scanDot, hc, ha]
        rw [hstep, ih]
        constructor
        · rintro ⟨b, d, rest, he, hb, hd⟩
          refine ⟨c :: b, d, rest, by rw [he, List.cons_append], ?_, hd⟩
          intro hm
          rcases List.mem_cons.mp hm with h1 | h1
          · exact ha h1.symm
          · exact hb h1
        · rintro ⟨b, d, rest, he, hb, hd⟩
          cases b with
          | nil =>
            rw [List.nil_append] at he
            injection he with h1 h2
            exact absurd h1 hc
          | cons b0 bt =>
            rw [List.cons_append] at he
            injection he with h1 h2
            refine ⟨bt, d, rest, h2, ?_, hd⟩
            exact fun hm => hb (List.mem_cons_of_mem b0 hm)

/-- Characterization of `[^@]+\.[^@]+` as a prefix match. -/
theorem tailAccepts_iff (l : List Char) :
    tailAccepts l = true ↔
      ∃ b d rest, l = b ++ '.' :: d :: rest ∧ b ≠ [] ∧ '@' ∉ b ∧ d ≠ '@' := by
  cases l with
  | nil =>
    constructor
    · intro h
      exact absurd h (by simp [tailAccepts])
    · rintro ⟨b, d, rest, he, -, -, -⟩
      have hl := congrArg List.length he
      simp at hl
      omega
  | cons c t =>
    have hred : tailAccepts (c :: t) = (!(c == '@') && scanDot t) := rfl
    rw [hred, Bool.and_eq_true, Bool.not_eq_true', beq_eq_false_iff_ne, scanDot_iff]
    constructor
    · rintro ⟨hc, b, d, rest, he, hb, hd⟩
      refine ⟨c :: b, d, rest, by rw [he, List.cons_append], by simp, ?_, hd⟩
      intro hm
      rcases List.mem_cons.mp hm with h1 | h1
      · exact hc h1.symm
      · exact hb h1
    · rintro ⟨b, d, rest, he, hbne, hb, hd⟩
      cases b with
      | nil => exact absurd rfl hbne
      | cons b0 bt =>
        rw [List.cons_append] at he
        injection he with h1 h2
        refine ⟨?_, bt, d, rest, h2, ?_, hd⟩
        · intro hq
          exact hb (List.mem_cons.mpr (Or.inl (by rw [← hq]; exact h1)))
        · exact fun hm => hb (List.mem_cons_of_mem b0 hm)

/-- The scan for the first `@` succeeds exactly when the list decomposes at
its first `@` with the rest matching the tail pattern. -/
theorem findFirstAt_iff (l : List Char) :
    findFirstAt l = true ↔
      ∃ a r, l = a ++ '@' :: r ∧ '@' ∉ a ∧ tailAccepts r = true := by
  induction l with
  | nil =>
    constructor
    · intro h
      exact absurd h (by simp [findFirstAt])
    · rintro ⟨a, r, he, -, -⟩
      have hl := congrArg List.length he
      simp at hl
      omega
  | cons c t ih =>
    by_cases hc : c = '@'
    · subst hc
      have hred : findFirstAt ('@' :: t) = tailAccepts t := by simp [findFirstAt]
      rw [hred]
      constructor
      · intro h
        exact ⟨[], t, rfl, by simp, h⟩
      · rintro ⟨a, r, he, ha, hr⟩
        cases a with
        | nil =>
          rw [List.nil_append] at he
          injection he with h1 h2
          rw [h2]
          exact hr
        | cons a0 at0 =>
          rw [List.cons_append] at he
          injection he with h1 h2
          exact absurd (List.mem_cons.mpr (Or.inl h1)) ha
    · have hred : findFirstAt (c :: t) = findFirstAt t := by simp [findFirstAt, hc]
      rw [hred, ih]
      constructor
      · rintro ⟨a, r, he, ha, hr⟩
        refine ⟨c :: a, r, by rw [he, List.cons_append], ?_, hr⟩
        intro hm
        rcases List.mem_cons.mp hm with h1 | h1
        · exact hc h1.symm
        · exact ha h1
      · rintro ⟨a, r, he, ha, hr⟩
        cases a with
        | nil =>
          rw [List.nil_append] at he
          injection he with h1 h2
          exact absurd h1 hc
        | cons a0 at0 =>
          rw [List.cons_append] at he
          injection he with h1 h2
          refine ⟨at0, r, h2, ?_, hr⟩
          exact fun hm => ha (List.mem_cons_of_mem a0 hm)

/-- The executable matcher for `[^@]+@[^@]+\.[^@]+` accepts exactly the
strings with a matching prefix. -/
theorem emailAccepts_iff (e : List Char) :
    emailAccepts e = true ↔ EmailShapeMatch e := by
  cases e with
  | nil =>
    constructor
    · intro h
      exact absurd h (by simp [emailAccepts])
    · rintro ⟨a, b, d, rest, he, -, -, -, -, -⟩
      have hl := congrArg List.length he
      simp at hl
      omega
  | cons c t =>
    have hred : emailAccepts (c :: t) = (!(c == '@') && findFirstAt t) := rfl
    rw [hred, Bool.and_eq_true, Bool.not_eq_true', beq_eq_false_iff_ne, findFirstAt_iff]
    constructor
    · rintro ⟨hc, a, r, he, ha, hr⟩
      rcases (tailAccepts_iff r).mp hr with ⟨b, d, rest, her, hbne, hb, hd⟩
      refine ⟨c :: a, b, d, rest, ?_, by simp, hbne, ?_, hb, hd⟩
      · rw [he, her, List.cons_append]
      · intro hm
        rcases List.mem_cons.mp hm with h1 | h1
        · exact hc h1.symm
        · exact ha h1
    · rintro ⟨a, b, d, rest, he, hane, hbne, hA, hB, hd⟩
      cases a with
      | nil => exact absurd rfl hane
      | cons a0 at0 =>
        rw [List.cons_append] at he
        injection he with h1 h2
        refine ⟨?_, at0, b ++ '.' :: d :: rest, h2, ?_, ?_⟩
        · intro hq
          exact hA (List.mem_cons.mpr (Or.inl (by rw [← hq]; exact h1)))
        · exact fun hm => hA (List.mem_cons_of_mem a0 hm)
        · exact (tailAccepts_iff _).mpr ⟨b, d, rest, rfl, hbne, hB, hd⟩

/-- Splitting around the first separator occurrence. -/
theorem pySplit_append (sep : Char) (a r : List Char) (h : sep ∉ a) :
    pySplit sep (a ++ sep :: r) = a :: pySplit sep r := by
  induction a with
  | nil => simp [pySplit]
  | cons c t ih =>
    have h1 : ¬ sep = c := fun hh => h (by rw [hh]; exact List.mem_cons_self c t)
    have h2 : sep ∉ t := fun hh => h (List.mem_cons_of_mem c hh)
    have hce : (c == sep) = false := by
      rw [beq_eq_false_iff_ne]
      exact fun hh => h1 hh.symm
    rw [List.cons_append]
    simp [pySplit, hce, ih h2]

/-- Claim C10: the CLI exits with code 1 exactly when the argument count is
wrong or no prefix of the email matches `[^@]+@[^@]+\.[^@]+`; the pattern is
unanchored on the right, so any string with such a prefix is accepted —
including one with a second `@` after the TLD — and the investigation then
uses the text before the first `@` as username and the text between the
first and second `@` (not the full remainder) as domain. -/
theorem cli_exit_shape :
    (∀ args : List (List Char), args.length ≠ 1 → pyMainExit args = some 1) ∧
    (∀ e : List Char, pyMainExit [e] = some 1 ↔ ¬ EmailShapeMatch e) ∧
    (∀ e : List Char, emailAccepts e = true ↔ EmailShapeMatch e) ∧
    (∀ a b r : List Char, '@' ∉ a → '@' ∉ b →
      usernameOf (a ++ '@' :: (b ++ '@' :: r)) = some a ∧
      domainOf (a ++ '@' :: (b ++ '@' :: r)) = some b ∧
      domainOf (a ++ '@' :: (b ++ '@' :: r)) ≠ some (b ++ '@' :: r)) ∧
    pyMainExit ["a@b.c@d".toList] = none ∧
    usernameOf "a@b.c@d".toList = some "a".toList ∧
    domainOf "a@b.c@d".toList = some "b.c".toList := by
  refine ⟨?_, ?_, emailAccepts_iff, ?_, by decide, by decide, by decide⟩
  · intro args h
    unfold pyMainExit
    rw [if_neg h]
  · intro e
    have hred : pyMainExit [e] = if emailAccepts e then none else some 1 := rfl
    rw [hred]
    by_cases he : emailAccepts e
    · rw [if_pos he]
      constructor
      · intro h
        exact absurd h (by simp)
      · intro h
        exact absurd ((emailAccepts_iff e).mp he) h
    · rw [if_neg he]
      constructor
      · intro _ hs
        exact he ((emailAccepts_iff e).mpr hs)
      · intro _
        rfl
  · intro a b r ha hb
    have hsplit : pySplit '@' (a ++ '@' :: (b ++ '@' :: r)) =
        a :: b :: pySplit '@' r := by
      rw [pySplit_append '@' a (b ++ '@' :: r) ha, pySplit_append '@' b r hb]
    have hidx : (a :: b :: pySplit '@' r)[1]? = some b := by simp
    refine ⟨?_, ?_, ?_⟩
    · rw [usernameOf, hsplit]
      simp
    · rw [domainOf, hsplit]
      exact hidx
    · rw [domainOf, hsplit, hidx]
      intro hq
      have hq2 : b = b ++ '@' :: r := Option.some.inj hq
      have hl := congrArg List.length hq2
      simp at hl

/-- Witness for `cli_exit_shape`: wrong arity exits with code 1, and the
doubly-`@` string `a@b.c@d` does match the pattern. -/
theorem cli_exit_shape_witness :
    pyMainExit [] = some 1 ∧ EmailShapeMatch "a@b.c@d".toList :=
  ⟨cli_exit_shape.1 [] (by decide), (cli_exit_shape.2.2.1 "a@b.c@d".toList).mp (by decide)⟩

end SherlockMail
